import Mathlib

/-!
Shallow embedding of `seatmap-browser.py`: a meeting seat-chart generator.

Python integers are modelled as `ℤ`.  For the divisors that occur in the
source (`2` and `10`, both positive) Python's `//` and `%` agree with Lean's
`Int.ediv` / `Int.emod` (written `/` and `%` below), since for a positive
divisor both round the quotient downward and return a non-negative remainder.

A Python value read from a spreadsheet cell is either a string or the
missing-value marker `NaN`; we model exactly these two possibilities.
Fallible code (dictionary lookups that may raise `KeyError`) returns
`Option`, with `none` standing for the raised exception.
-/


/-- A scalar stored in a spreadsheet cell / pandas frame: a string, or the
missing-value marker (`NaN`). -/
inductive PyVal where
  | pstr (s : String)
  | pnan
  deriving DecidableEq, Repr

/-- Python's `str(v)`: the string itself, or `"nan"` for the float NaN. -/
def PyVal.str : PyVal → String
  | .pstr s => s
  | .pnan => "nan"

/-- `pd.isna(v)`. -/
def PyVal.isna : PyVal → Bool
  | .pstr _ => false
  | .pnan => true

/-- The dictionary `mapping` in `num_to_chinese` (lines 11-22): a lookup that
yields `none` exactly where Python would raise `KeyError`. -/
def mapping (n : ℤ) : Option String :=
  if n = 1 then some "一"
  else if n = 2 then some "二"
  else if n = 3 then some "三"
  else if n = 4 then some "四"
  else if n = 5 then some "五"
  else if n = 6 then some "六"
  else if n = 7 then some "七"
  else if n = 8 then some "八"
  else if n = 9 then some "九"
  else if n = 10 then some "十"
  else none

/-- `num_to_chinese` (lines 7-30).  `none` models a raised `KeyError`.
Note that Python evaluates `mapping[tens]` only when `tens > 1`, and
`mapping[ones]` only when `ones != 0`. -/
def num_to_chinese (num : ℤ) : Option String :=
  match mapping num with
  | some s => some s
  | none =>
    let tens := num / 10
    let ones := num % 10
    match (if 1 < tens then (mapping tens).map (fun s => s ++ "十") else some "十") with
    | none => none
    | some tens_part =>
      match (if ones ≠ 0 then mapping ones else some "") with
      | none => none
      | some ones_part => some (tens_part ++ ones_part)

/-- Python's `f"{num:02d}"`: decimal rendering left-padded with `'0'` to a
minimum width of two characters. -/
def intPad2 (n : ℤ) : String :=
  let s := toString n
  if s.length < 2 then "0" ++ s else s

/-- The `while left >= 0 or right < seats_per_row` loop shared by both
branches of `compute_seating_pattern` (lines 43-50 and 57-64).  Each
iteration appends at most one seat index and flips `toggle`. -/
def patternLoop (seats_per_row left right : ℤ) (toggle : Bool) : List ℤ :=
  if _h : 0 ≤ left ∨ right < seats_per_row then
    if _h1 : toggle = true ∧ 0 ≤ left then
      left :: patternLoop seats_per_row (left - 1) right (!toggle)
    else if _h2 : toggle = false ∧ right < seats_per_row then
      right :: patternLoop seats_per_row left (right + 1) (!toggle)
    else
      patternLoop seats_per_row left right (!toggle)
  else []
termination_by
  2 * ((left + 1).toNat + (seats_per_row - right).toNat) +
    (if (toggle = true ∧ 0 ≤ left) ∨ (toggle = false ∧ right < seats_per_row) then 0 else 1)
decreasing_by
  · split <;> split <;> omega
  · split <;> split <;> omega
  · rcases Bool.eq_false_or_eq_true toggle with ht | ht <;>
      simp only [ht, Bool.not_true, Bool.not_false] at * <;>
      split <;> split <;> simp_all <;> omega

/-- `compute_seating_pattern` (lines 32-65). -/
def compute_seating_pattern (seats_per_row : ℤ) : List ℤ :=
  if seats_per_row % 2 = 0 then
    patternLoop seats_per_row (seats_per_row / 2 - 1) (seats_per_row / 2) true
  else
    (seats_per_row / 2) ::
      patternLoop seats_per_row (seats_per_row / 2 - 1) (seats_per_row / 2 + 1) true

/-- `left_count` in `generate_column_labels` (lines 72-77). -/
def left_count (seats_per_row : ℤ) : ℤ :=
  if seats_per_row % 2 = 0 then seats_per_row / 2 else seats_per_row / 2 + 1

/-- `right_count` in `generate_column_labels` (lines 72-77). -/
def right_count (seats_per_row : ℤ) : ℤ := seats_per_row / 2

/-- `generate_column_labels` (lines 67-87): descending odd labels on the
left, ascending even labels on the right, each formatted `f"{num:02d}"`. -/
def generate_column_labels (seats_per_row : ℤ) : List String :=
  ((List.range (left_count seats_per_row).toNat).map
      fun (i : ℕ) => intPad2 (2 * left_count seats_per_row - (2 * (i : ℤ) + 1))) ++
    ((List.range (right_count seats_per_row).toNat).map
      fun (i : ℕ) => intPad2 (2 * ((i : ℤ) + 1)))

/-- Closed form of the alternating loop: starting from `left = k - 1`,
`right = W - k`, `toggle = true`, the loop emits `k` left/right pairs
`[k-1, W-k, k-2, W-k+1, …, 0, W-1]`.  Defined by structural recursion, so
it evaluates in the kernel (unlike the well-founded `patternLoop`). -/
def pairList (W : ℤ) : ℕ → List ℤ
  | 0 => []
  | k + 1 => (k : ℤ) :: (W - k - 1) :: pairList W k

/-- The ascending seat positions `[0, 1, …, n-1]` as integers. -/
def seatRange (n : ℕ) : List ℤ := (List.range n).map fun (m : ℕ) => (m : ℤ)

/-- The numbers rendered into the left (descending odd) labels. -/
def leftNums (W : ℤ) : List ℤ :=
  (List.range (left_count W).toNat).map fun (i : ℕ) => 2 * left_count W - (2 * (i : ℤ) + 1)

/-- The numbers rendered into the right (ascending even) labels. -/
def rightNums (W : ℤ) : List ℤ :=
  (List.range (right_count W).toNat).map fun (i : ℕ) => 2 * ((i : ℤ) + 1)

/-- The fixed atomic tokens of the spec's numeral contract (§4.1). -/
def chineseAtom (n : ℕ) : String :=
  match n with
  | 1 => "一"
  | 2 => "二"
  | 3 => "三"
  | 4 => "四"
  | 5 => "五"
  | 6 => "六"
  | 7 => "七"
  | 8 => "八"
  | 9 => "九"
  | 10 => "十"
  | _ => ""

/-- Spec-side restatement of the §4.1 numeral contract: `1–10` map to fixed
atomic tokens; `11–19` are the bare ten-token followed by the ones token;
`20–99` are the tens-digit token, the ten-token, then the ones token, with the
ones token omitted when the ones digit is zero. -/
def numToChineseSpec (n : ℕ) : String :=
  if 1 ≤ n ∧ n ≤ 10 then chineseAtom n
  else if 11 ≤ n ∧ n ≤ 19 then
    "十" ++ (if n % 10 = 0 then "" else chineseAtom (n % 10))
  else
    chineseAtom (n / 10) ++ "十" ++ (if n % 10 = 0 then "" else chineseAtom (n % 10))

/-- One row of the uploaded table: a `PERSONID` key and a `NAME` cell. -/
structure Attendee where
  personid : ℤ
  name : PyVal
  deriving DecidableEq, Repr

/-- `df.sort_values(by='PERSONID', ascending=True)` (line 98): a stable sort
ascending on the identifier. -/
def sortAtt (attendees : List Attendee) : List Attendee :=
  attendees.insertionSort (fun a b => a.personid ≤ b.personid)

/-- `num_rows = math.ceil(total_people / seats_per_row)` (line 101), as exact
integer arithmetic. -/
def numRows (total_people : ℕ) (seats_per_row : ℤ) : ℕ :=
  (total_people + seats_per_row.toNat - 1) / seats_per_row.toNat

/-- `df_sorted.iloc[start_idx:end_idx]` for logical row `row` (lines 112-114);
Python slicing clamps at the end of the list exactly as `drop`/`take` do. -/
def rowChunk (sorted : List Attendee) (seats_per_row : ℤ) (row : ℕ) : List Attendee :=
  (sorted.drop (row * seats_per_row.toNat)).take seats_per_row.toNat

/-- The pairs `(seating_pattern[i], person)` traversed by the loop of lines
115-118: `enumerate(persons)` with the guard `i < len(seating_pattern)` is
exactly the zip of the pattern with the chunk. -/
def rowPairs (sorted : List Attendee) (seats_per_row : ℤ) (row : ℕ) : List (ℤ × Attendee) :=
  (compute_seating_pattern seats_per_row).zip (rowChunk sorted seats_per_row row)

/-- The writes `row_seats[seat_index] = person['NAME']` of line 118, performed
in loop order. -/
def fillSeats (row_seats : List PyVal) : List (ℤ × Attendee) → List PyVal
  | [] => row_seats
  | q :: rest => fillSeats (row_seats.set q.1.toNat q.2.name) rest

/-- `seating_chart` (lines 105-128): one list of `W` cells per logical row,
initialised to `""` and filled through the pattern. -/
def seatingRows (attendees : List Attendee) (seats_per_row : ℤ) : List (List PyVal) :=
  (List.range (numRows (sortAtt attendees).length seats_per_row)).map fun row =>
    fillSeats (List.replicate seats_per_row.toNat (PyVal.pstr ""))
      (rowPairs (sortAtt attendees) seats_per_row row)

/-- `f"第{num_to_chinese(row + 1)}排"` (lines 120 and 132); total by
defaulting the numeral to `""`, the top-level `generate_seating_chart` guard
restores the raised-`KeyError` behaviour. -/
def rowLabelStr (row : ℕ) : String :=
  "第" ++ (num_to_chinese ((row : ℤ) + 1)).getD "" ++ "排"

/-- One record appended to `assignments` (lines 122-127). -/
structure Assignment where
  personid : ℤ
  name : PyVal
  row : String
  seat : String
  deriving DecidableEq, Repr

/-- The `assignments` list accumulated by the row loop (lines 107-128). -/
def assignmentsList (attendees : List Attendee) (seats_per_row : ℤ) : List Assignment :=
  (List.range (numRows (sortAtt attendees).length seats_per_row)).flatMap fun row =>
    (rowPairs (sortAtt attendees) seats_per_row row).map fun q =>
      { personid := q.2.personid
        name := q.2.name
        row := rowLabelStr row
        seat := (generate_column_labels seats_per_row).getD q.1.toNat "" }

/-- `assignments.sort(key=lambda x: x["PERSONID"])` (line 142): a stable sort
ascending on the identifier. -/
def sortedAssignments (attendees : List Attendee) (seats_per_row : ℤ) : List Assignment :=
  (assignmentsList attendees seats_per_row).insertionSort (fun a b => a.personid ≤ b.personid)

/-- Python's `str.strip()`: remove leading and trailing whitespace.  (Defined
over the character list so that it evaluates in the kernel.) -/
def strStrip (s : String) : String :=
  ⟨((s.data.dropWhile Char.isWhitespace).reverse.dropWhile Char.isWhitespace).reverse⟩

/-- Python's `str.lower()`: lower-case each character.  (Defined over the
character list so that it evaluates in the kernel.) -/
def strLower (s : String) : String := ⟨s.data.map Char.toLower⟩

/-- The render-time substitution of lines 145-147: an `NaN`, effectively-`"nan"`
or blank name is displayed as the reserved-seat placeholder. -/
def renderName (v : PyVal) : String :=
  if v.isna = true ∨ strLower (strStrip v.str) = "nan" ∨ strStrip v.str = "" then
    "预留空位"
  else v.str

/-- `f"{name_val} 在{item['ROW']}第{item['SEAT']}座位。"` (line 148). -/
def explanationLine (a : Assignment) : String :=
  renderName a.name ++ " 在" ++ a.row ++ "第" ++ a.seat ++ "座位。"

/-- `explanation_lines` (lines 143-148). -/
def explanationLines (attendees : List Attendee) (seats_per_row : ℤ) : List String :=
  (sortedAssignments attendees seats_per_row).map explanationLine

/-- `final_table` (lines 130-137): the row labels and the grid both reversed,
so the first logical row is displayed at the bottom. -/
def finalTable (attendees : List Attendee) (seats_per_row : ℤ) : List (String × List PyVal) :=
  (((List.range (numRows (sortAtt attendees).length seats_per_row)).map rowLabelStr).reverse).zip
    ((seatingRows attendees seats_per_row).reverse)

/-- `generate_seating_chart` (lines 89-151), returning the displayed table and
the explanation text.  The guard checks that every numeral conversion the
Python code performs (`num_to_chinese(row + 1)` for each produced row) succeeds;
otherwise the Python raises `KeyError` and returns nothing, modelled as
`none`. -/
def generate_seating_chart (attendees : List Attendee) (seats_per_row : ℤ) :
    Option (List (String × List PyVal) × String) :=
  if (List.range (numRows (sortAtt attendees).length seats_per_row)).all
      (fun row => (num_to_chinese ((row : ℤ) + 1)).isSome) then
    some (finalTable attendees seats_per_row,
      String.intercalate "\n" (explanationLines attendees seats_per_row))
  else none

/-- The 12 attendees of the spec's concrete scenario A: identifiers `1..12`
(already ascending), names `"p01"…"p12"`. -/
def scenarioA : List Attendee :=
  [⟨1, .pstr "p01"⟩, ⟨2, .pstr "p02"⟩, ⟨3, .pstr "p03"⟩, ⟨4, .pstr "p04"⟩,
   ⟨5, .pstr "p05"⟩, ⟨6, .pstr "p06"⟩, ⟨7, .pstr "p07"⟩, ⟨8, .pstr "p08"⟩,
   ⟨9, .pstr "p09"⟩, ⟨10, .pstr "p10"⟩, ⟨11, .pstr "p11"⟩, ⟨12, .pstr "p12"⟩]

/-- Attendees `1..n` with constant names, used to drive the chart past the
numeral formatter's range. -/
def crashInput (n : ℕ) : List Attendee :=
  (List.range n).map fun (i : ℕ) => ⟨(i : ℤ) + 1, PyVal.pstr "x"⟩

instance : IsTotal Assignment (fun a b => a.personid ≤ b.personid) :=
  ⟨fun a b => Int.le_total a.personid b.personid⟩

instance : IsTrans Assignment (fun a b => a.personid ≤ b.personid) :=
  ⟨fun _ _ _ hab hbc => le_trans hab hbc⟩

/-- The three attendees of the spec's concrete scenario C, deliberately given
out of order: one blank name and one missing (`NaN`) name. -/
def scenarioC : List Attendee := [⟨2, .pstr "Bob"⟩, ⟨1, .pstr ""⟩, ⟨3, .pnan⟩]


lemma sanity_labels_w10 : generate_column_labels 10 =
    ["09", "07", "05", "03", "01", "02", "04", "06", "08", "10"] := by decide

lemma sanity_chinese_12 : num_to_chinese 12 = some "十二" := by decide

lemma sanity_chinese_0 : num_to_chinese 0 = some "十" := by decide

lemma sanity_chinese_110 : num_to_chinese 110 = none := by decide

lemma patternLoop_eq_pairList (W : ℤ) (k : ℕ) :
    patternLoop W ((k : ℤ) - 1) (W - (k : ℤ)) true = pairList W k := by
  induction k with
  | zero =>
    rw [patternLoop.eq_def]
    simp [pairList]
  | succ k ih =>
    rw [patternLoop.eq_def]
    rw [dif_pos (Or.inl (by push_cast; omega))]
    rw [dif_pos ⟨rfl, by push_cast; omega⟩]
    rw [patternLoop.eq_def]
    rw [dif_pos (Or.inr (by push_cast; omega))]
    rw [dif_neg (by simp)]
    rw [dif_pos ⟨by simp, by push_cast; omega⟩]
    have e1 : ((k : ℤ) + 1) - 1 - 1 = (k : ℤ) - 1 := by ring
    have e2 : W - ((k : ℤ) + 1) + 1 = W - (k : ℤ) := by ring
    push_cast
    rw [e1, e2]
    simp only [Bool.not_not, Bool.not_true, Bool.not_false]
    rw [ih]
    simp only [pairList, List.cons.injEq]
    refine ⟨by ring, by ring, trivial⟩

/-- For even `W` the pattern is the `W/2` centred pairs. -/
lemma compute_seating_pattern_even (W : ℤ) (h0 : 0 ≤ W) (he : W % 2 = 0) :
    compute_seating_pattern W = pairList W (W / 2).toNat := by
  have hk : ((W / 2).toNat : ℤ) = W / 2 := Int.toNat_of_nonneg (by omega)
  have h := patternLoop_eq_pairList W (W / 2).toNat
  rw [hk] at h
  rw [show W - W / 2 = W / 2 from by omega] at h
  rw [compute_seating_pattern, if_pos he]
  exact h

/-- For odd `W` the pattern is the centre seat followed by `W/2` pairs. -/
lemma compute_seating_pattern_odd (W : ℤ) (h0 : 0 ≤ W) (he : W % 2 = 1) :
    compute_seating_pattern W = (W / 2) :: pairList W (W / 2).toNat := by
  have hk : ((W / 2).toNat : ℤ) = W / 2 := Int.toNat_of_nonneg (by omega)
  have h := patternLoop_eq_pairList W (W / 2).toNat
  rw [hk] at h
  rw [show W - W / 2 = W / 2 + 1 from by omega] at h
  rw [compute_seating_pattern, if_neg (by omega)]
  rw [h]

lemma sanity_pattern_w10 : compute_seating_pattern 10 = [4, 5, 3, 6, 2, 7, 1, 8, 0, 9] := by
  rw [compute_seating_pattern_even 10 (by norm_num) (by norm_num)]
  decide

lemma sanity_pattern_w7 : compute_seating_pattern 7 = [3, 2, 4, 1, 5, 0, 6] := by
  rw [compute_seating_pattern_odd 7 (by norm_num) (by norm_num)]
  decide

lemma sanity_pattern_w1 : compute_seating_pattern 1 = [0] := by
  rw [compute_seating_pattern_odd 1 (by norm_num) (by norm_num)]
  decide

lemma pairList_length (W : ℤ) (k : ℕ) : (pairList W k).length = 2 * k := by
  induction k with
  | zero => simp [pairList]
  | succ k ih => simp [pairList, ih]; omega

lemma mem_pairList (W : ℤ) (k : ℕ) (x : ℤ) :
    x ∈ pairList W k ↔ (0 ≤ x ∧ x < k) ∨ (W - k ≤ x ∧ x < W) := by
  induction k with
  | zero => simp [pairList]
  | succ k ih =>
    simp only [pairList, List.mem_cons, ih]
    push_cast
    omega

lemma pairList_nodup (W : ℤ) (k : ℕ) (hk : 2 * (k : ℤ) ≤ W) :
    (pairList W k).Nodup := by
  induction k with
  | zero => simp [pairList]
  | succ k ih =>
    push_cast at hk
    have h1 : ((k : ℤ)) ∉ pairList W k := by rw [mem_pairList]; omega
    have h2 : (W - (k : ℤ) - 1) ∉ pairList W k := by rw [mem_pairList]; omega
    have h3 : ((k : ℤ)) ≠ W - (k : ℤ) - 1 := by omega
    have ih' := ih (by omega)
    simp only [pairList, List.nodup_cons, List.mem_cons]
    refine ⟨?_, h2, ih'⟩
    rintro (h | h)
    · exact h3 h
    · exact h1 h

/-- The fill pattern of a row of width `W ≥ 1`: length `W`, no duplicates,
and its members are exactly the seat positions `0 ≤ x < W`. -/
lemma compute_seating_pattern_spec (W : ℤ) (hW : 1 ≤ W) :
    (compute_seating_pattern W).length = W.toNat ∧
    (compute_seating_pattern W).Nodup ∧
    (∀ x : ℤ, x ∈ compute_seating_pattern W ↔ 0 ≤ x ∧ x < W) := by
  rcases Int.emod_two_eq_zero_or_one W with he | he
  · rw [compute_seating_pattern_even W (by omega) he]
    have hk : ((W / 2).toNat : ℤ) = W / 2 := Int.toNat_of_nonneg (by omega)
    refine ⟨?_, pairList_nodup _ _ (by omega), ?_⟩
    · rw [pairList_length]; omega
    · intro x
      rw [mem_pairList]
      omega
  · rw [compute_seating_pattern_odd W (by omega) he]
    have hk : ((W / 2).toNat : ℤ) = W / 2 := Int.toNat_of_nonneg (by omega)
    refine ⟨?_, ?_, ?_⟩
    · simp only [List.length_cons, pairList_length]; omega
    · rw [List.nodup_cons, mem_pairList]
      exact ⟨by omega, pairList_nodup _ _ (by omega)⟩
    · intro x
      simp only [List.mem_cons, mem_pairList]
      omega

lemma seatRange_nodup (n : ℕ) : (seatRange n).Nodup := by
  apply List.Nodup.map
  · intro a b h
    simpa using h
  · exact List.nodup_range n

lemma mem_seatRange (n : ℕ) (x : ℤ) : x ∈ seatRange n ↔ 0 ≤ x ∧ x < n := by
  simp only [seatRange, List.mem_map, List.mem_range]
  constructor
  · rintro ⟨m, hm, rfl⟩
    omega
  · rintro ⟨h0, hn⟩
    exact ⟨x.toNat, by omega, by omega⟩

lemma seatRange_sorted (n : ℕ) : List.Sorted (· ≤ ·) (seatRange n) :=
  (List.pairwise_lt_range n).map _ (fun _ _ h => by exact_mod_cast Nat.le_of_lt h)

lemma compute_seating_pattern_perm (W : ℤ) (hW : 1 ≤ W) :
    (compute_seating_pattern W).Perm (seatRange W.toNat) := by
  obtain ⟨hlen, hnd, hmem⟩ := compute_seating_pattern_spec W hW
  rw [List.perm_ext_iff_of_nodup hnd (seatRange_nodup _)]
  intro x
  rw [hmem, mem_seatRange]
  omega

/-- **C1.** For every `W ≥ 1`, `compute_seating_pattern W` has length `W` and
is a permutation of the seat positions `{0, …, W-1}`; in particular sorting
it yields `[0, 1, …, W-1]`. -/
theorem fill_pattern_is_permutation (W : ℤ) (hW : 1 ≤ W) :
    (compute_seating_pattern W).length = W.toNat ∧
    (compute_seating_pattern W).Perm (seatRange W.toNat) ∧
    (compute_seating_pattern W).insertionSort (· ≤ ·) = seatRange W.toNat := by
  obtain ⟨hlen, hnd, hmem⟩ := compute_seating_pattern_spec W hW
  have hperm := compute_seating_pattern_perm W hW
  refine ⟨hlen, hperm, ?_⟩
  refine List.eq_of_perm_of_sorted ((List.perm_insertionSort _ _).trans hperm) ?_ (seatRange_sorted _)
  exact List.sorted_insertionSort _ _

/-- **C1 witness** at `W = 10`. -/
theorem fill_pattern_is_permutation_witness :
    (compute_seating_pattern 10).length = (10 : ℤ).toNat ∧
    (compute_seating_pattern 10).Perm (seatRange (10 : ℤ).toNat) ∧
    (compute_seating_pattern 10).insertionSort (· ≤ ·) = seatRange (10 : ℤ).toNat :=
  fill_pattern_is_permutation 10 (by norm_num)

lemma pairList_getElem? (W : ℤ) (k j : ℕ) (hj : j < k) :
    (pairList W k)[2 * j]? = some ((k : ℤ) - 1 - j) ∧
    (pairList W k)[2 * j + 1]? = some (W - k + j) := by
  induction k generalizing j with
  | zero => omega
  | succ k ih =>
    cases j with
    | zero =>
      norm_num [pairList]
      omega
    | succ j =>
      obtain ⟨a, b⟩ := ih j (by omega)
      have h2 : 2 * (j + 1) = (2 * j) + 1 + 1 := by ring
      rw [h2]
      simp only [pairList, List.getElem?_cons_succ]
      constructor
      · rw [a]
        congr 1
        push_cast
        ring
      · rw [b]
        congr 1
        push_cast
        ring

lemma generate_column_labels_length (W : ℤ) (h0 : 0 ≤ W) :
    (generate_column_labels W).length = W.toNat := by
  have h2 : left_count W + right_count W = W := by
    unfold left_count right_count
    split <;> omega
  have hl : 0 ≤ left_count W := by unfold left_count; split <;> omega
  have hr : 0 ≤ right_count W := by unfold right_count; omega
  simp only [generate_column_labels, List.length_append, List.length_map, List.length_range]
  omega

lemma generate_column_labels_getElem?_left (W : ℤ) (p : ℕ)
    (hp : p < (left_count W).toNat) :
    (generate_column_labels W)[p]? = some (intPad2 (2 * left_count W - (2 * p + 1))) := by
  rw [generate_column_labels, List.getElem?_append_left (by simpa using hp)]
  simp [hp]

lemma generate_column_labels_getElem?_right (W : ℤ) (i : ℕ)
    (hi : i < (right_count W).toNat) :
    (generate_column_labels W)[(left_count W).toNat + i]? = some (intPad2 (2 * (i + 1))) := by
  rw [generate_column_labels, List.getElem?_append_right (by simp)]
  simp [hi]

lemma generate_column_labels_eq_nums (W : ℤ) :
    generate_column_labels W = (leftNums W ++ rightNums W).map intPad2 := by
  simp only [generate_column_labels, leftNums, rightNums, List.map_append, List.map_map]
  rfl

lemma intPad2_length_two : ∀ n : ℕ, n < 100 → (intPad2 (n : ℤ)).length = 2 := by decide

lemma leftNums_getElem? (W : ℤ) (i : ℕ) (hi : i < (left_count W).toNat) :
    (leftNums W)[i]? = some (2 * left_count W - (2 * (i : ℤ) + 1)) := by
  rw [leftNums, List.getElem?_map, List.getElem?_range hi]
  rfl

lemma rightNums_getElem? (W : ℤ) (i : ℕ) (hi : i < (right_count W).toNat) :
    (rightNums W)[i]? = some (2 * ((i : ℤ) + 1)) := by
  rw [rightNums, List.getElem?_map, List.getElem?_range hi]
  rfl

lemma left_count_eq (W : ℤ) : left_count W = (W + 1) / 2 := by
  unfold left_count
  split <;> omega

/-- **C3 (amended).** For `W ≥ 1` the label list has length `W` and consists of
the width-2 zero-padded renderings of: first, `ceil(W/2)` strictly decreasing
odd numbers from `2*leftCount - 1` down to `1`; then `floor(W/2)` strictly
increasing even numbers from `2` up to `2*rightCount`.  Every label is exactly
two characters when `W ≤ 99` (for `W ≥ 100` three-digit numbers appear, see the
counterexample). -/
theorem column_labels_spec (W : ℤ) (hW : 1 ≤ W) :
    (generate_column_labels W).length = W.toNat ∧
    left_count W = (W + 1) / 2 ∧
    right_count W = W / 2 ∧
    generate_column_labels W = (leftNums W ++ rightNums W).map intPad2 ∧
    (leftNums W).Pairwise (· > ·) ∧
    (∀ x ∈ leftNums W, x % 2 = 1) ∧
    (leftNums W)[0]? = some (2 * left_count W - 1) ∧
    (leftNums W)[(left_count W).toNat - 1]? = some 1 ∧
    (rightNums W).Pairwise (· < ·) ∧
    (∀ x ∈ rightNums W, x % 2 = 0) ∧
    (1 ≤ right_count W →
      (rightNums W)[0]? = some 2 ∧
      (rightNums W)[(right_count W).toNat - 1]? = some (2 * right_count W)) ∧
    (W ≤ 99 → ∀ s ∈ generate_column_labels W, s.length = 2) := by
  have hL : left_count W = (W + 1) / 2 := left_count_eq W
  have hR : right_count W = W / 2 := rfl
  have hL1 : 1 ≤ left_count W := by omega
  have hLn : ((left_count W).toNat : ℤ) = left_count W := Int.toNat_of_nonneg (by omega)
  have hRn : ((right_count W).toNat : ℤ) = right_count W := Int.toNat_of_nonneg (by omega)
  refine ⟨?_, hL, hR, generate_column_labels_eq_nums W, ?_, ?_, ?_, ?_, ?_, ?_, ?_, ?_⟩
  · simp only [generate_column_labels, List.length_append, List.length_map, List.length_range]
    omega
  · exact (List.pairwise_lt_range _).map _ (fun a b h => by omega)
  · intro x hx
    simp only [leftNums, List.mem_map, List.mem_range] at hx
    obtain ⟨i, hi, rfl⟩ := hx
    omega
  · rw [leftNums_getElem? W 0 (by omega)]
    congr 1
  · rw [leftNums_getElem? W _ (by omega)]
    congr 1
    omega
  · exact (List.pairwise_lt_range _).map _ (fun a b h => by omega)
  · intro x hx
    simp only [rightNums, List.mem_map, List.mem_range] at hx
    obtain ⟨i, hi, rfl⟩ := hx
    omega
  · intro hR1
    constructor
    · rw [rightNums_getElem? W 0 (by omega)]
      congr 1
    · rw [rightNums_getElem? W _ (by omega)]
      congr 1
      omega
  · intro hW99 s hs
    rw [generate_column_labels_eq_nums] at hs
    simp only [List.mem_map, List.mem_append, leftNums, rightNums, List.mem_range] at hs
    obtain ⟨v, hv | hv, rfl⟩ := hs
    · obtain ⟨i, hi, rfl⟩ := hv
      have hb : 0 ≤ 2 * left_count W - (2 * (i : ℤ) + 1) ∧
          2 * left_count W - (2 * (i : ℤ) + 1) < 100 := by omega
      rw [show 2 * left_count W - (2 * (i : ℤ) + 1) =
          (((2 * left_count W - (2 * (i : ℤ) + 1)).toNat : ℕ) : ℤ) from by omega]
      exact intPad2_length_two _ (by omega)
    · obtain ⟨i, hi, rfl⟩ := hv
      have hb : (0 : ℤ) ≤ 2 * ((i : ℤ) + 1) ∧ 2 * ((i : ℤ) + 1) < 100 := by omega
      rw [show 2 * ((i : ℤ) + 1) = (((2 * ((i : ℤ) + 1)).toNat : ℕ) : ℤ) from by omega]
      exact intPad2_length_two _ (by omega)

/-- **C3 witness** at `W = 7`: the label list has length `7`. -/
theorem column_labels_spec_witness : (generate_column_labels 7).length = (7 : ℤ).toNat :=
  (column_labels_spec 7 (by norm_num)).1

/-- **C3 counterexample.** At `W = 100` the last label is `"100"`, which has
three characters, so "every label is a zero-padded two-character numeral" fails
for unrestricted `W ≥ 1`. -/
theorem column_labels_three_chars_at_100 :
    (generate_column_labels 100)[99]? = some "100" ∧ ("100").length ≠ 2 := by decide

/-- **C9.** For every even `W ≥ 2` and `k < W`: the column label sitting at the
`k`-th fill-pattern position is the zero-padded rendering of `k + 1`, i.e. the
`k`-th attendee seated in a row occupies the seat labelled `k + 1`. -/
theorem pattern_label_composition (W : ℤ) (heven : W % 2 = 0) (hW : 2 ≤ W)
    (k : ℕ) (hk : (k : ℤ) < W) :
    ∃ p : ℤ, (compute_seating_pattern W)[k]? = some p ∧ 0 ≤ p ∧
      (generate_column_labels W)[p.toNat]? = some (intPad2 ((k : ℤ) + 1)) := by
  have hmZ : (((W / 2).toNat : ℕ) : ℤ) = W / 2 := Int.toNat_of_nonneg (by omega)
  set m := (W / 2).toNat with hm
  have hW2 : W = 2 * (m : ℤ) := by omega
  have hL : left_count W = (m : ℤ) := by rw [left_count_eq]; omega
  have hLn : (left_count W).toNat = m := by omega
  have hRn : (right_count W).toNat = m := by
    have : right_count W = (m : ℤ) := by unfold right_count; omega
    omega
  rw [compute_seating_pattern_even W (by omega) heven]
  rcases Nat.even_or_odd k with ⟨j, hj⟩ | ⟨j, hj⟩
  · subst hj
    have hjm : j < m := by omega
    obtain ⟨ha, _⟩ := pairList_getElem? W m j hjm
    refine ⟨(m : ℤ) - 1 - j, ?_, by omega, ?_⟩
    · rw [show j + j = 2 * j from by ring]
      exact ha
    · have hp : ((m : ℤ) - 1 - (j : ℤ)).toNat = m - 1 - j := by omega
      rw [hp]
      rw [generate_column_labels_getElem?_left W _ (by omega)]
      have harg : 2 * left_count W - (2 * ((m - 1 - j : ℕ) : ℤ) + 1) = ((j + j : ℕ) : ℤ) + 1 := by
        rw [hL]
        omega
      rw [harg]
  · subst hj
    have hjm : j < m := by omega
    obtain ⟨_, hb⟩ := pairList_getElem? W m j hjm
    refine ⟨W - (m : ℤ) + j, ?_, by omega, ?_⟩
    · exact hb
    · have hp : (W - (m : ℤ) + (j : ℤ)).toNat = m + j := by omega
      rw [hp, show m + j = (left_count W).toNat + j from by omega]
      rw [generate_column_labels_getElem?_right W j (by omega)]
      have harg : 2 * (((j : ℕ) : ℤ) + 1) = ((2 * j + 1 : ℕ) : ℤ) + 1 := by
        push_cast
        ring
      rw [harg]

/-- **C9 witness** at `W = 10`, `k = 3`. -/
theorem pattern_label_composition_witness :
    ∃ p : ℤ, (compute_seating_pattern 10)[3]? = some p ∧ 0 ≤ p ∧
      (generate_column_labels 10)[p.toNat]? = some (intPad2 (((3 : ℕ) : ℤ) + 1)) :=
  pattern_label_composition 10 (by norm_num) (by norm_num) 3 (by norm_num)

lemma mapping_eq_none_iff (n : ℤ) : mapping n = none ↔ (n < 1 ∨ 10 < n) := by
  unfold mapping
  split_ifs <;> simp <;> omega

/-- `num_to_chinese` raises (`none`) exactly when `110 ≤ n`: then the tens
digit `n // 10 ≥ 11` misses the dictionary.  For every `n ≤ 109` — including
`n ≤ 0` and `100 ≤ n ≤ 109` — the function returns a string normally. -/
lemma num_to_chinese_eq_none_iff (n : ℤ) : num_to_chinese n = none ↔ 110 ≤ n := by
  unfold num_to_chinese
  cases hm : mapping n with
  | some s =>
    have h := mapping_eq_none_iff n
    rw [hm] at h
    simp at h
    simp
    omega
  | none =>
    dsimp only
    have hn : n < 1 ∨ 10 < n := (mapping_eq_none_iff n).mp hm
    have hones : 0 ≤ n % 10 ∧ n % 10 < 10 :=
      ⟨Int.emod_nonneg n (by norm_num), Int.emod_lt_of_pos n (by norm_num)⟩
    have honesSome : (if n % 10 ≠ 0 then mapping (n % 10) else some "") ≠ none := by
      split_ifs with h
      · rw [Ne, mapping_eq_none_iff]
        omega
      · simp
    by_cases ht : 110 ≤ n
    · have h1 : 1 < n / 10 := by omega
      have h2 : mapping (n / 10) = none := (mapping_eq_none_iff _).mpr (by omega)
      rw [if_pos h1, h2]
      simp [ht]
    · by_cases h1 : 1 < n / 10
      · have h2 : mapping (n / 10) ≠ none := by
          rw [Ne, mapping_eq_none_iff]
          omega
        obtain ⟨ts, hts⟩ := Option.ne_none_iff_exists'.mp h2
        obtain ⟨os, hos⟩ := Option.ne_none_iff_exists'.mp honesSome
        rw [if_pos h1, hts, hos]
        simp [ht]
      · obtain ⟨os, hos⟩ := Option.ne_none_iff_exists'.mp honesSome
        rw [if_neg h1, hos]
        simp [ht]

/-- **C4 counterexample.** Out-of-range inputs do *not* fail: `0` yields the
bare ten-token (the same text as `10`), `100` yields a double ten-token, and
negative numbers also produce tokens — no `InvalidInput` error occurs. -/
theorem num_to_chinese_no_range_error :
    num_to_chinese 0 = some "十" ∧ num_to_chinese 100 = some "十十" ∧
      num_to_chinese (-5) = some "十五" := by decide

/-- **C4 (amended).** `num_to_chinese` performs no range validation: it fails
(raises `KeyError`, modelled as `none`) exactly for `n ≥ 110`; every `n ≤ 109`
— in particular every `n ≤ 0` and `100 ≤ n ≤ 109` — returns a token without
error. -/
theorem numToChinese_fails_iff_110 (n : ℤ) : num_to_chinese n = none ↔ 110 ≤ n :=
  num_to_chinese_eq_none_iff n

lemma num_to_chinese_small :
    ∀ m : ℕ, m < 99 → num_to_chinese ((m : ℤ) + 1) = some (numToChineseSpec (m + 1)) := by
  decide

/-- **C5.** On `1 ≤ n ≤ 99` the formatter meets the stated contract. -/
theorem numeral_formatter_contract (n : ℤ) (h1 : 1 ≤ n) (h2 : n ≤ 99) :
    num_to_chinese n = some (numToChineseSpec n.toNat) := by
  have h3 := num_to_chinese_small (n.toNat - 1) (by omega)
  rw [show n.toNat - 1 + 1 = n.toNat from by omega] at h3
  nth_rewrite 1 [show n = ((n.toNat - 1 : ℕ) : ℤ) + 1 from by omega]
  exact h3

/-- **C5 witness** at `n = 37`. -/
theorem numeral_formatter_contract_witness :
    num_to_chinese 37 = some (numToChineseSpec (37 : ℤ).toNat) :=
  numeral_formatter_contract 37 (by norm_num) (by norm_num)

/-- **C2.** Scenario A: `W = 10`, attendees `1..12`.  The pattern is
`[4,5,3,6,2,7,1,8,0,9]`; logical row 1 fills all ten physical positions (the
centre-outward arrangement `p09 p07 p05 p03 p01 p02 p04 p06 p08 p10`); logical
row 2 holds attendees 11 and 12 at physical positions 4 and 5 and eight empty
cells; there are exactly 2 logical rows, and the displayed table lists row 2
first (top) and row 1 last (bottom). -/
theorem scenario_a_grid :
    compute_seating_pattern 10 = [4, 5, 3, 6, 2, 7, 1, 8, 0, 9] ∧
    (seatingRows scenarioA 10).length = 2 ∧
    seatingRows scenarioA 10 =
      [[.pstr "p09", .pstr "p07", .pstr "p05", .pstr "p03", .pstr "p01",
        .pstr "p02", .pstr "p04", .pstr "p06", .pstr "p08", .pstr "p10"],
       [.pstr "", .pstr "", .pstr "", .pstr "", .pstr "p11",
        .pstr "p12", .pstr "", .pstr "", .pstr "", .pstr ""]] ∧
    finalTable scenarioA 10 =
      [("第二排",
        [.pstr "", .pstr "", .pstr "", .pstr "", .pstr "p11",
         .pstr "p12", .pstr "", .pstr "", .pstr "", .pstr ""]),
       ("第一排",
        [.pstr "p09", .pstr "p07", .pstr "p05", .pstr "p03", .pstr "p01",
         .pstr "p02", .pstr "p04", .pstr "p06", .pstr "p08", .pstr "p10"])] := by
  have hpat : compute_seating_pattern 10 = [4, 5, 3, 6, 2, 7, 1, 8, 0, 9] := by
    rw [compute_seating_pattern_even 10 (by norm_num) (by norm_num)]
    decide
  refine ⟨hpat, ?_, ?_, ?_⟩ <;>
    simp only [seatingRows, finalTable, rowPairs, hpat] <;> decide

/-- **C10.** Any assignment whose name trims and lowercases to the literal
text `"nan"` is rendered in the explanation with the reserved-seat placeholder,
even when the name is a genuinely present string. -/
theorem render_nan_text_as_placeholder (a : Assignment)
    (h : strLower (strStrip a.name.str) = "nan") :
    explanationLine a = "预留空位" ++ " 在" ++ a.row ++ "第" ++ a.seat ++ "座位。" := by
  unfold explanationLine renderName
  rw [if_pos (Or.inr (Or.inl h))]

/-- **C10 witness**: the literal name `"NaN"` is displayed as the placeholder. -/
theorem render_nan_text_as_placeholder_witness :
    strLower (strStrip (PyVal.pstr "NaN").str) = "nan" ∧
      explanationLine ⟨3, PyVal.pstr "NaN", "第一排", "01"⟩ =
        "预留空位" ++ " 在" ++ "第一排" ++ "第" ++ "01" ++ "座位。" :=
  ⟨by decide, render_nan_text_as_placeholder ⟨3, PyVal.pstr "NaN", "第一排", "01"⟩ (by decide)⟩

lemma sortAtt_length (l : List Attendee) : (sortAtt l).length = l.length := by
  simp [sortAtt, List.length_insertionSort]

lemma fillSeats_length (ps : List (ℤ × Attendee)) (seats : List PyVal) :
    (fillSeats seats ps).length = seats.length := by
  induction ps generalizing seats with
  | nil => rfl
  | cons q rest ih => rw [fillSeats, ih, List.length_set]

lemma fillSeats_getElem?_not_mem (ps : List (ℤ × Attendee)) (seats : List PyVal) (j : ℕ)
    (hj : ∀ q ∈ ps, q.1.toNat ≠ j) :
    (fillSeats seats ps)[j]? = seats[j]? := by
  induction ps generalizing seats with
  | nil => rfl
  | cons q rest ih =>
    rw [fillSeats, ih _ (fun q' hq' => hj q' (List.mem_cons_of_mem _ hq'))]
    exact List.getElem?_set_ne (hj q (List.mem_cons_self _ _))

lemma fillSeats_getElem?_found (ps : List (ℤ × Attendee)) (seats : List PyVal)
    (q : ℤ × Attendee) (hmem : q ∈ ps) (hnd : (ps.map (fun r => r.1.toNat)).Nodup)
    (hlt : q.1.toNat < seats.length) :
    (fillSeats seats ps)[q.1.toNat]? = some q.2.name := by
  induction ps generalizing seats with
  | nil => cases hmem
  | cons r rest ih =>
    simp only [List.map_cons, List.nodup_cons] at hnd
    rw [fillSeats]
    rcases List.mem_cons.mp hmem with rfl | hmem'
    · have hnot : ∀ r' ∈ rest, r'.1.toNat ≠ q.1.toNat := by
        intro r' hr' he
        exact hnd.1 (he ▸ List.mem_map_of_mem _ hr')
      rw [fillSeats_getElem?_not_mem rest _ _ hnot]
      exact List.getElem?_set_self hlt
    · exact ih _ hmem' hnd.2 (by simpa using hlt)

lemma map_fst_zip_eq_take {α β : Type} (xs : List α) (ys : List β) :
    (xs.zip ys).map Prod.fst = xs.take ys.length := by
  induction xs generalizing ys with
  | nil => simp
  | cons x xs ih =>
    cases ys with
    | nil => simp
    | cons y ys => simp [List.zip_cons_cons, ih]

lemma map_snd_zip_of_le {α β : Type} (xs : List α) (ys : List β) (h : ys.length ≤ xs.length) :
    (xs.zip ys).map Prod.snd = ys := by
  induction xs generalizing ys with
  | nil =>
    cases ys with
    | nil => simp
    | cons y ys => simp at h
  | cons x xs ih =>
    cases ys with
    | nil => simp
    | cons y ys =>
      simp only [List.zip_cons_cons, List.map_cons]
      rw [ih ys (by simpa using h)]

lemma zip_getElem? {α β : Type} (xs : List α) (ys : List β) (i : ℕ)
    (hx : i < xs.length) (hy : i < ys.length) :
    (xs.zip ys)[i]? = some (xs[i], ys[i]) := by
  have hl : i < (xs.zip ys).length := by simp [List.length_zip]; omega
  rw [List.getElem?_eq_getElem hl]
  congr 1
  exact List.getElem_zip

lemma numRows_mul_ge (N : ℕ) (W : ℤ) (hW : 1 ≤ W) : N ≤ numRows N W * W.toNat := by
  have hw1 : 1 ≤ W.toNat := by omega
  unfold numRows
  have hdm := Nat.div_add_mod (N + W.toNat - 1) W.toNat
  have hmod : (N + W.toNat - 1) % W.toNat < W.toNat := Nat.mod_lt _ (by omega)
  have hc : W.toNat * ((N + W.toNat - 1) / W.toNat) =
      (N + W.toNat - 1) / W.toNat * W.toNat := Nat.mul_comm _ _
  omega

lemma numRows_pred_mul_lt (N : ℕ) (W : ℤ) (hW : 1 ≤ W) (hN : 0 < N) :
    (numRows N W - 1) * W.toNat < N := by
  have hw1 : 1 ≤ W.toNat := by omega
  unfold numRows
  have hdm := Nat.div_add_mod (N + W.toNat - 1) W.toNat
  have hmod : (N + W.toNat - 1) % W.toNat < W.toNat := Nat.mod_lt _ (by omega)
  have hc : W.toNat * ((N + W.toNat - 1) / W.toNat) =
      (N + W.toNat - 1) / W.toNat * W.toNat := Nat.mul_comm _ _
  have hs : ((N + W.toNat - 1) / W.toNat - 1) * W.toNat =
      (N + W.toNat - 1) / W.toNat * W.toNat - W.toNat := Nat.sub_one_mul _ _
  omega

lemma numRows_eq_zero_iff (N : ℕ) (W : ℤ) (hW : 1 ≤ W) : numRows N W = 0 ↔ N = 0 := by
  have hw1 : 1 ≤ W.toNat := by omega
  unfold numRows
  constructor
  · intro h
    have hdm := Nat.div_add_mod (N + W.toNat - 1) W.toNat
    rw [h, Nat.mul_zero, Nat.zero_add] at hdm
    have hmod : (N + W.toNat - 1) % W.toNat < W.toNat := Nat.mod_lt _ (by omega)
    omega
  · intro h
    subst h
    apply Nat.div_eq_of_lt
    omega

lemma rowChunk_length (sorted : List Attendee) (W : ℤ) (r : ℕ) :
    (rowChunk sorted W r).length = min W.toNat (sorted.length - r * W.toNat) := by
  simp [rowChunk]

lemma rowChunk_length_full (sorted : List Attendee) (W : ℤ) (r : ℕ)
    (h : (r + 1) * W.toNat ≤ sorted.length) :
    (rowChunk sorted W r).length = W.toNat := by
  rw [rowChunk_length]
  have e : (r + 1) * W.toNat = r * W.toNat + W.toNat := Nat.succ_mul r W.toNat
  omega

lemma rowChunk_length_le (sorted : List Attendee) (W : ℤ) (r : ℕ) :
    (rowChunk sorted W r).length ≤ W.toNat := by
  rw [rowChunk_length]
  omega

lemma rowChunk_getElem? (sorted : List Attendee) (W : ℤ) (r i : ℕ) (hi : i < W.toNat) :
    (rowChunk sorted W r)[i]? = sorted[r * W.toNat + i]? := by
  unfold rowChunk
  rw [List.getElem?_take, if_pos hi, List.getElem?_drop]

lemma chunks_flatMap (W : ℤ) :
    ∀ (rows : ℕ) (sorted : List Attendee), sorted.length ≤ rows * W.toNat →
      (List.range rows).flatMap (rowChunk sorted W) = sorted := by
  intro rows
  induction rows with
  | zero =>
    intro sorted h
    simp only [Nat.zero_mul, Nat.le_zero] at h
    simp [List.length_eq_zero.mp h]
  | succ n ih =>
    intro sorted h
    have hfun : ∀ r : ℕ,
        rowChunk sorted W (r + 1) = rowChunk (sorted.drop W.toNat) W r := by
      intro r
      unfold rowChunk
      rw [List.drop_drop]
      congr 2
      rw [Nat.succ_mul, Nat.add_comm]
    have hlen : (sorted.drop W.toNat).length ≤ n * W.toNat := by
      have e : (n + 1) * W.toNat = n * W.toNat + W.toNat := Nat.succ_mul n W.toNat
      simp only [List.length_drop]
      omega
    rw [List.range_succ_eq_map, List.flatMap_cons, List.flatMap_map]
    simp only [Nat.succ_eq_add_one, hfun]
    rw [ih (sorted.drop W.toNat) hlen]
    simp [rowChunk]

lemma mem_pattern_nonneg (W : ℤ) (hW : 1 ≤ W) {x : ℤ} (hx : x ∈ compute_seating_pattern W) :
    0 ≤ x ∧ x < W :=
  ((compute_seating_pattern_spec W hW).2.2 x).mp hx

lemma rowPairs_map_fst_toNat_nodup (attendees : List Attendee) (W : ℤ) (hW : 1 ≤ W) (r : ℕ) :
    ((rowPairs (sortAtt attendees) W r).map (fun q => q.1.toNat)).Nodup := by
  obtain ⟨hplen, hpnd, hpmem⟩ := compute_seating_pattern_spec W hW
  have h1 : (rowPairs (sortAtt attendees) W r).map (fun q => q.1.toNat) =
      ((compute_seating_pattern W).take (rowChunk (sortAtt attendees) W r).length).map
        Int.toNat := by
    rw [show (fun q : ℤ × Attendee => q.1.toNat) = Int.toNat ∘ Prod.fst from rfl]
    rw [← List.map_map, rowPairs, map_fst_zip_eq_take]
  rw [h1]
  apply List.Nodup.map_on
  · intro x hx y hy hxy
    have hx' := (hpmem x).mp (List.mem_of_mem_take hx)
    have hy' := (hpmem y).mp (List.mem_of_mem_take hy)
    omega
  · exact hpnd.sublist (List.take_sublist _ _)

lemma chart_isSome_of_rows_le (attendees : List Attendee) (W : ℤ)
    (hrows : numRows attendees.length W ≤ 109) :
    (generate_seating_chart attendees W).isSome = true := by
  rw [generate_seating_chart, if_pos ?_]
  · rfl
  · rw [List.all_eq_true]
    intro r hr
    rw [List.mem_range, sortAtt_length] at hr
    have hnn : ¬ (num_to_chinese ((r : ℤ) + 1) = none) := by
      rw [num_to_chinese_eq_none_iff]
      omega
    simp only [Option.isSome_iff_ne_none]
    exact hnn

/-- **C6 (amended).** For every attendee list and `W ≥ 1` with
`ceil(N/W) ≤ 109` (the numeral formatter's supported range, beyond which the
code raises instead of producing output): the chart generation succeeds; there
are exactly `ceil(N/W)` logical rows; every row before the last covers all `W`
seats; the last logical row has exactly `N - W*(rows-1)` attendee-filled seats,
sitting at the first `N - W*(rows-1)` fill-pattern positions, and every other
cell of a row is the empty string. -/
theorem seating_chart_rows (attendees : List Attendee) (W : ℤ) (hW : 1 ≤ W)
    (hrows : numRows attendees.length W ≤ 109) :
    (generate_seating_chart attendees W).isSome = true ∧
    (seatingRows attendees W).length = numRows attendees.length W ∧
    (∀ r : ℕ, r + 1 < numRows attendees.length W →
      (rowChunk (sortAtt attendees) W r).length = W.toNat) ∧
    (0 < attendees.length →
      (rowChunk (sortAtt attendees) W (numRows attendees.length W - 1)).length =
        attendees.length - W.toNat * (numRows attendees.length W - 1)) ∧
    (∀ r : ℕ, r < numRows attendees.length W →
      ∃ row, (seatingRows attendees W)[r]? = some row ∧ row.length = W.toNat ∧
        (∀ i : ℕ, i < (rowChunk (sortAtt attendees) W r).length →
          ∃ p a, (compute_seating_pattern W)[i]? = some p ∧ 0 ≤ p ∧
            (sortAtt attendees)[r * W.toNat + i]? = some a ∧
            row[p.toNat]? = some a.name) ∧
        (∀ j : ℕ, j < W.toNat →
          (j : ℤ) ∉ (compute_seating_pattern W).take
            (rowChunk (sortAtt attendees) W r).length →
          row[j]? = some (PyVal.pstr ""))) := by
  obtain ⟨hplen, hpnd, hpmem⟩ := compute_seating_pattern_spec W hW
  have hN : (sortAtt attendees).length = attendees.length := sortAtt_length _
  refine ⟨chart_isSome_of_rows_le attendees W hrows, ?_, ?_, ?_, ?_⟩
  · simp [seatingRows, hN]
  · intro r hr
    have hNpos : 0 < attendees.length := by
      rcases Nat.eq_zero_or_pos attendees.length with h0 | h0
      · rw [(numRows_eq_zero_iff attendees.length W hW).mpr h0] at hr
        omega
      · exact h0
    apply rowChunk_length_full
    rw [hN]
    exact Nat.le_of_lt (lt_of_le_of_lt (Nat.mul_le_mul_right _ (by omega))
      (numRows_pred_mul_lt _ W hW hNpos))
  · intro hNpos
    rw [rowChunk_length, hN]
    have hge := numRows_mul_ge attendees.length W hW
    have hpos : 1 ≤ numRows attendees.length W := by
      have := (numRows_eq_zero_iff attendees.length W hW).mp
      omega
    have e1 : numRows attendees.length W * W.toNat =
        (numRows attendees.length W - 1) * W.toNat + W.toNat := by
      have hsm := Nat.succ_mul (numRows attendees.length W - 1) W.toNat
      rw [Nat.succ_eq_add_one, Nat.sub_add_cancel hpos] at hsm
      omega
    have e2 : W.toNat * (numRows attendees.length W - 1) =
        (numRows attendees.length W - 1) * W.toNat := Nat.mul_comm _ _
    omega
  · intro r hr
    have hrowlen : (rowChunk (sortAtt attendees) W r).length ≤ W.toNat :=
      rowChunk_length_le _ W r
    refine ⟨fillSeats (List.replicate W.toNat (PyVal.pstr ""))
      (rowPairs (sortAtt attendees) W r), ?_, ?_, ?_, ?_⟩
    · rw [seatingRows, List.getElem?_map, List.getElem?_range (by rw [hN]; exact hr)]
      rfl
    · rw [fillSeats_length, List.length_replicate]
    · intro i hi
      have hiw : i < W.toNat := lt_of_lt_of_le hi hrowlen
      have hip : i < (compute_seating_pattern W).length := by omega
      refine ⟨(compute_seating_pattern W)[i], (rowChunk (sortAtt attendees) W r)[i],
        List.getElem?_eq_getElem hip, ?_, ?_, ?_⟩
      · exact (mem_pattern_nonneg W hW (List.getElem_mem hip)).1
      · rw [← rowChunk_getElem? (sortAtt attendees) W r i hiw]
        exact List.getElem?_eq_getElem hi
      · have hval : (rowPairs (sortAtt attendees) W r)[i]? =
            some ((compute_seating_pattern W)[i], (rowChunk (sortAtt attendees) W r)[i]) := by
          unfold rowPairs
          exact zip_getElem? _ _ i hip hi
        have hq : ((compute_seating_pattern W)[i], (rowChunk (sortAtt attendees) W r)[i]) ∈
            rowPairs (sortAtt attendees) W r := by
          obtain ⟨hlt2, heq⟩ := List.getElem?_eq_some.mp hval
          exact heq ▸ List.getElem_mem hlt2
        apply fillSeats_getElem?_found _ _ _ hq
          (rowPairs_map_fst_toNat_nodup attendees W hW r)
        rw [List.length_replicate]
        have := mem_pattern_nonneg W hW (List.getElem_mem hip)
        omega
    · intro j hjw hjnot
      rw [fillSeats_getElem?_not_mem]
      · rw [List.getElem?_replicate, if_pos hjw]
      · intro q hq he
        have hq1 : q.1 ∈ (compute_seating_pattern W).take
            (rowChunk (sortAtt attendees) W r).length := by
          have := List.mem_map_of_mem Prod.fst hq
          rwa [rowPairs, map_fst_zip_eq_take] at this
        have hq0 : 0 ≤ q.1 :=
          (mem_pattern_nonneg W hW (List.mem_of_mem_take hq1)).1
        apply hjnot
        rw [show (j : ℤ) = q.1 from by omega]
        exact hq1

/-- **C6 witness**: at scenario A (`N = 12`, `W = 10`) generation succeeds and
there are `ceil(12/10) = 2` logical rows. -/
theorem seating_chart_rows_witness :
    (generate_seating_chart scenarioA 10).isSome = true ∧
    (seatingRows scenarioA 10).length = numRows scenarioA.length 10 :=
  ⟨(seating_chart_rows scenarioA 10 (by norm_num) (by decide)).1,
   (seating_chart_rows scenarioA 10 (by norm_num) (by decide)).2.1⟩

/-- **C6 counterexample.** For `N = 110`, `W = 1` the claim demands
`ceil(110/1) = 110` logical rows, but the code crashes in `num_to_chinese`
(row 110 has tens digit 11, missing from the dictionary) and produces no
output at all. -/
theorem seating_chart_crash_at_110_rows :
    numRows (crashInput 110).length 1 = 110 ∧
      generate_seating_chart (crashInput 110) 1 = none := by
  constructor
  · decide
  · decide

lemma rowPairs_length (attendees : List Attendee) (W : ℤ) (hW : 1 ≤ W) (r : ℕ) :
    (rowPairs (sortAtt attendees) W r).length = (rowChunk (sortAtt attendees) W r).length := by
  unfold rowPairs
  rw [List.length_zip, (compute_seating_pattern_spec W hW).1]
  have := rowChunk_length_le (sortAtt attendees) W r
  omega

lemma map_comp_snd_zip_of_le {α β γ : Type} (g : β → γ) (xs : List α) (ys : List β)
    (h : ys.length ≤ xs.length) :
    (xs.zip ys).map (fun q => g q.2) = ys.map g := by
  rw [show (fun q : α × β => g q.2) = g ∘ Prod.snd from rfl, ← List.map_map,
    map_snd_zip_of_le xs ys h]

lemma rowPairs_map_snd_comp (attendees : List Attendee) (W : ℤ) (hW : 1 ≤ W) (r : ℕ)
    {γ : Type} (g : Attendee → γ) :
    (rowPairs (sortAtt attendees) W r).map (fun q => g q.2) =
      (rowChunk (sortAtt attendees) W r).map g := by
  unfold rowPairs
  apply map_comp_snd_zip_of_le
  rw [(compute_seating_pattern_spec W hW).1]
  exact rowChunk_length_le _ W r

/-- The assignment records carry exactly the sorted attendees' identifiers and
(unmodified) names, in chunk order. -/
lemma assignmentsList_map_pid_name (attendees : List Attendee) (W : ℤ) (hW : 1 ≤ W) :
    (assignmentsList attendees W).map (fun a => (a.personid, a.name)) =
      (sortAtt attendees).map (fun a => (a.personid, a.name)) := by
  have hN : (sortAtt attendees).length = attendees.length := sortAtt_length _
  unfold assignmentsList
  rw [List.map_flatMap]
  have hpt : ∀ row : ℕ,
      (((rowPairs (sortAtt attendees) W row).map fun q =>
          ({ personid := q.2.personid, name := q.2.name, row := rowLabelStr row,
             seat := (generate_column_labels W).getD q.1.toNat "" } : Assignment)).map
        fun a => (a.personid, a.name)) =
      (rowChunk (sortAtt attendees) W row).map fun a => (a.personid, a.name) := by
    intro row
    rw [List.map_map]
    have e : ((fun a : Assignment => (a.personid, a.name)) ∘ fun q : ℤ × Attendee =>
        ({ personid := q.2.personid, name := q.2.name, row := rowLabelStr row,
           seat := (generate_column_labels W).getD q.1.toNat "" } : Assignment)) =
        fun q : ℤ × Attendee => (q.2.personid, q.2.name) := rfl
    rw [e]
    exact rowPairs_map_snd_comp attendees W hW row (fun a => (a.personid, a.name))
  calc ((List.range (numRows (sortAtt attendees).length W)).flatMap fun row =>
          ((rowPairs (sortAtt attendees) W row).map fun q =>
            ({ personid := q.2.personid, name := q.2.name, row := rowLabelStr row,
               seat := (generate_column_labels W).getD q.1.toNat "" } : Assignment)).map
            fun a => (a.personid, a.name))
      = (List.range (numRows (sortAtt attendees).length W)).flatMap fun row =>
          (rowChunk (sortAtt attendees) W row).map fun a => (a.personid, a.name) := by
        exact congrArg _ (funext hpt)
    _ = ((List.range (numRows (sortAtt attendees).length W)).flatMap
          (rowChunk (sortAtt attendees) W)).map fun a => (a.personid, a.name) := by
        rw [List.map_flatMap]
    _ = (sortAtt attendees).map fun a => (a.personid, a.name) := by
        rw [chunks_flatMap W _ _ (by rw [hN]; exact numRows_mul_ge attendees.length W hW)]

lemma assignmentsList_length (attendees : List Attendee) (W : ℤ) (hW : 1 ≤ W) :
    (assignmentsList attendees W).length = attendees.length := by
  have h := congrArg List.length (assignmentsList_map_pid_name attendees W hW)
  simpa [sortAtt_length] using h

lemma assignmentsList_map_personid (attendees : List Attendee) (W : ℤ) (hW : 1 ≤ W) :
    (assignmentsList attendees W).map (fun a => a.personid) =
      (sortAtt attendees).map (fun a => a.personid) := by
  have h := congrArg (List.map Prod.fst) (assignmentsList_map_pid_name attendees W hW)
  simpa [List.map_map, Function.comp_def] using h

lemma assignmentsList_map_name (attendees : List Attendee) (W : ℤ) (hW : 1 ≤ W) :
    (assignmentsList attendees W).map (fun a => a.name) =
      (sortAtt attendees).map (fun a => a.name) := by
  have h := congrArg (List.map Prod.snd) (assignmentsList_map_pid_name attendees W hW)
  simpa [List.map_map, Function.comp_def] using h

/-- **C7 (amended).** For every input with pairwise-distinct identifiers whose
row count stays within the numeral formatter's range (`ceil(N/W) ≤ 109`),
generation succeeds and the placement list is strictly ascending by `PERSONID`
— independent of physical seat positions and of the reversed display order —
with exactly one placement line per attendee. -/
theorem placement_list_sorted (attendees : List Attendee) (W : ℤ) (hW : 1 ≤ W)
    (hids : (attendees.map (fun a => a.personid)).Nodup)
    (hrows : numRows attendees.length W ≤ 109) :
    (generate_seating_chart attendees W).isSome = true ∧
    (sortedAssignments attendees W).Pairwise (fun a b => a.personid < b.personid) ∧
    (sortedAssignments attendees W).length = attendees.length ∧
    (explanationLines attendees W).length = attendees.length := by
  have hperm : (sortAtt attendees).Perm attendees := List.perm_insertionSort _ _
  have hids2 : ((sortAtt attendees).map (fun a => a.personid)).Nodup :=
    ((hperm.map _).nodup_iff).mpr hids
  have hids3 : ((assignmentsList attendees W).map (fun a => a.personid)).Nodup := by
    rw [assignmentsList_map_personid attendees W hW]
    exact hids2
  have hperm2 : (sortedAssignments attendees W).Perm (assignmentsList attendees W) :=
    List.perm_insertionSort _ _
  have hids4 : ((sortedAssignments attendees W).map (fun a => a.personid)).Nodup :=
    ((hperm2.map _).nodup_iff).mpr hids3
  have hsorted : (sortedAssignments attendees W).Pairwise
      (fun a b => a.personid ≤ b.personid) :=
    List.sorted_insertionSort _ _
  have hsorted2 : ((sortedAssignments attendees W).map (fun a => a.personid)).Sorted
      (· ≤ ·) :=
    List.pairwise_map.mpr hsorted
  have hlt : ((sortedAssignments attendees W).map (fun a => a.personid)).Sorted
      (· < ·) := hsorted2.lt_of_le hids4
  refine ⟨chart_isSome_of_rows_le attendees W hrows, List.pairwise_map.mp hlt, ?_, ?_⟩
  · rw [hperm2.length_eq, assignmentsList_length attendees W hW]
  · rw [explanationLines, List.length_map, hperm2.length_eq,
      assignmentsList_length attendees W hW]

/-- **C7 witness** at scenario A. -/
theorem placement_list_sorted_witness :
    (sortedAssignments scenarioA 10).Pairwise (fun a b => a.personid < b.personid) ∧
    (sortedAssignments scenarioA 10).length = scenarioA.length :=
  ⟨(placement_list_sorted scenarioA 10 (by norm_num) (by decide) (by decide)).2.1,
   (placement_list_sorted scenarioA 10 (by norm_num) (by decide) (by decide)).2.2.1⟩

/-- **C7 counterexample.** An input of 111 attendees with pairwise-distinct
identifiers at `W = 1` satisfies the claim's precondition, yet the code crashes
in the numeral formatter and returns no placement list at all. -/
theorem placement_crash_with_unique_ids :
    ((crashInput 111).map (fun a => a.personid)).Nodup ∧
      generate_seating_chart (crashInput 111) 1 = none := by
  constructor
  · decide
  · decide

lemma flatMap_range_getElem? {α : Type} (w : ℕ) :
    ∀ (r : ℕ) (f : ℕ → List α) (rows o : ℕ), r < rows → o < (f r).length →
      (∀ r' < r, (f r').length = w) →
      ((List.range rows).flatMap f)[r * w + o]? = (f r)[o]? := by
  intro r
  induction r with
  | zero =>
    intro f rows o hr ho _
    obtain ⟨n, rfl⟩ : ∃ n, rows = n + 1 := ⟨rows - 1, by omega⟩
    rw [List.range_succ_eq_map, List.flatMap_cons, Nat.zero_mul, Nat.zero_add]
    exact List.getElem?_append_left ho
  | succ r ih =>
    intro f rows o hr ho hfull
    obtain ⟨n, rfl⟩ : ∃ n, rows = n + 1 := ⟨rows - 1, by omega⟩
    rw [List.range_succ_eq_map, List.flatMap_cons, List.flatMap_map]
    have hf0 : (f 0).length = w := hfull 0 (by omega)
    have he : (r + 1) * w + o = w + (r * w + o) := by
      have e : (r + 1) * w = r * w + 1 * w := Nat.add_mul r 1 w
      rw [Nat.one_mul] at e
      omega
    rw [he, List.getElem?_append_right (by rw [hf0]; omega), hf0,
      show w + (r * w + o) - w = r * w + o from by omega]
    exact ih (fun a => f (a + 1)) n o (by omega) ho (fun r' hr' => hfull (r' + 1) (by omega))

/-- Closed form for the `i`-th assignment record: the attendee at sorted
position `i` is placed in logical row `i / W` at the fill-pattern seat for
offset `i % W`, keeping its identifier and (unmodified) name.  The row and
seat depend only on `i` and `W`, never on the name. -/
lemma assignmentsList_getElem? (attendees : List Attendee) (W : ℤ) (hW : 1 ≤ W)
    (i : ℕ) (hi : i < attendees.length) :
    ∃ p a, (compute_seating_pattern W)[i % W.toNat]? = some p ∧
      (sortAtt attendees)[i]? = some a ∧
      (assignmentsList attendees W)[i]? = some
        { personid := a.personid, name := a.name,
          row := rowLabelStr (i / W.toNat),
          seat := (generate_column_labels W).getD p.toNat "" } := by
  have hN : (sortAtt attendees).length = attendees.length := sortAtt_length _
  obtain ⟨hplen, hpnd, hpmem⟩ := compute_seating_pattern_spec W hW
  have hw1 : 1 ≤ W.toNat := by omega
  set r := i / W.toNat with hr
  set o := i % W.toNat with ho2
  have hdm : W.toNat * r + o = i := Nat.div_add_mod i W.toNat
  have hc : W.toNat * r = r * W.toNat := Nat.mul_comm _ _
  have how : o < W.toNat := by rw [ho2]; exact Nat.mod_lt _ (by omega)
  have hge := numRows_mul_ge attendees.length W hW
  have hrlt : r < numRows attendees.length W := by
    by_contra hcon
    have hmul : numRows attendees.length W * W.toNat ≤ r * W.toNat :=
      Nat.mul_le_mul_right _ (by omega)
    omega
  have hol : o < (rowChunk (sortAtt attendees) W r).length := by
    rw [rowChunk_length, hN]
    omega
  have hfull : ∀ r' < r, (rowPairs (sortAtt attendees) W r').length = W.toNat := by
    intro r' hr'
    rw [rowPairs_length attendees W hW r']
    apply rowChunk_length_full
    rw [hN]
    have hmul : (r' + 1) * W.toNat ≤ r * W.toNat :=
      Nat.mul_le_mul_right _ (by omega)
    omega
  have hop : o < (compute_seating_pattern W).length := by omega
  have hi_eq : i = r * W.toNat + o := by omega
  refine ⟨(compute_seating_pattern W)[o], (rowChunk (sortAtt attendees) W r)[o],
    List.getElem?_eq_getElem hop, ?_, ?_⟩
  · rw [hi_eq, ← rowChunk_getElem? (sortAtt attendees) W r o how]
    exact List.getElem?_eq_getElem hol
  · unfold assignmentsList
    rw [hN, hi_eq]
    rw [flatMap_range_getElem? W.toNat r _ (numRows attendees.length W) o hrlt
      (by rw [List.length_map, rowPairs_length attendees W hW]; exact hol)
      (fun r' hr' => by rw [List.length_map]; exact hfull r' hr')]
    rw [List.getElem?_map]
    have hzip : (rowPairs (sortAtt attendees) W r)[o]? =
        some ((compute_seating_pattern W)[o], (rowChunk (sortAtt attendees) W r)[o]) := by
      unfold rowPairs
      exact zip_getElem? _ _ _ hop hol
    rw [hzip]
    rfl

/-- **C8.** A blank / missing / `NaN`-marked name changes nothing about seat
assignment: (1) the assignment records carry every attendee's original `NAME`
value unchanged, in sorted order; (2) each record's row and seat are a function
of the attendee's position `i` in identifier order and of `W` only (row
`i / W`, the seat at fill-pattern offset `i % W`) — the name is never
consulted; (3) the reserved-seat placeholder is substituted only when
rendering the explanation line. -/
theorem blank_name_frame (attendees : List Attendee) (W : ℤ) (hW : 1 ≤ W) :
    (assignmentsList attendees W).map (fun a => a.name) =
      (sortAtt attendees).map (fun a => a.name) ∧
    (∀ i : ℕ, i < attendees.length →
      ∃ p a, (compute_seating_pattern W)[i % W.toNat]? = some p ∧
        (sortAtt attendees)[i]? = some a ∧
        (assignmentsList attendees W)[i]? = some
          { personid := a.personid, name := a.name,
            row := rowLabelStr (i / W.toNat),
            seat := (generate_column_labels W).getD p.toNat "" }) ∧
    (∀ a : Assignment,
      a.name.isna = true ∨ strStrip a.name.str = "" ∨
        strLower (strStrip a.name.str) = "nan" →
      explanationLine a = "预留空位" ++ " 在" ++ a.row ++ "第" ++ a.seat ++ "座位。") := by
  refine ⟨assignmentsList_map_name attendees W hW,
    assignmentsList_getElem? attendees W hW, ?_⟩
  intro a ha
  unfold explanationLine renderName
  rcases ha with h | h | h
  · rw [if_pos (Or.inl h)]
  · rw [if_pos (Or.inr (Or.inr h))]
  · rw [if_pos (Or.inr (Or.inl h))]

/-- **C8 witness** at scenario C (`W = 2`): the records keep the original
names — empty and `NaN` included — in identifier order. -/
theorem blank_name_frame_witness :
    (assignmentsList scenarioC 2).map (fun a => a.name) =
      (sortAtt scenarioC).map (fun a => a.name) :=
  (blank_name_frame scenarioC 2 (by norm_num)).1
